import Mathlib

/-!
Shallow embedding of the subtitle-editing core of the srt-creator repository:
the undo/redo history hook (src/hooks/useSubtitleHistory.ts), the segment
editing actions (useSubtitleActions: delete / split / merge / cascading time
change) and the SRT timestamp utilities (utils/srtParser.ts).

Modelling conventions:
* JavaScript numbers are modelled as `Int` (indices, pointers) and as exact
  rationals `ℚ` (fractional seconds). Integer arithmetic below 2^53 is
  exact in JS doubles, but fractional values such as ms/1000 generally are
  not: in IEEE doubles `timeToSeconds("00:08.200")` is
  8.199999999999999289…, not 41/5. The rational model therefore only
  mirrors the program faithfully on values the doubles represent exactly:
  a theorem whose truth depends on the rounding of a non-dyadic value is
  restricted to the dyadic domain, and a theorem that quotes the program's
  own arithmetic expression on both sides is independent of the
  convention.
* `JSON.parse(JSON.stringify(x))` on these plain records is a deep clone and
  is modelled as the identity; snapshot equality by `JSON.stringify` is
  structural equality.
* Strings are Lean strings (lists of characters); the subtitle texts and
  timestamps manipulated here are plain ASCII, where JS UTF-16 code-unit
  indexing agrees with character indexing.
-/

namespace Srt

/-- One subtitle unit, from `types.ts`: numeric `index`, `startTime` and
`endTime` strings (MM:SS.mmm), and the caption `text`. -/
structure SubtitleEntry where
  index : Int
  startTime : String
  endTime : String
  text : String
deriving DecidableEq, Repr

instance : Inhabited SubtitleEntry := ⟨⟨0, "", "", ""⟩⟩

/-- A history snapshot: one deep-cloned copy of the subtitle list. -/
abbrev Snap := List SubtitleEntry

/-- State of the `useSubtitleHistory` hook: the `history` list of snapshots
and the `historyPointer`, initially -1. -/
structure HistoryState where
  history : List Snap
  historyPointer : Int
deriving DecidableEq

/-- `const MAX_HISTORY = 50`. -/
def MAX_HISTORY : Nat := 50

/-- The hook's initial state: `useState([])`, `useState(-1)`. -/
def initialHistory : HistoryState := { history := [], historyPointer := -1 }

/-- The duplicate check at the top of `pushToHistory`:
`historyPointer >= 0 && history.length > 0 &&
 JSON.stringify(history[historyPointer]) === JSON.stringify(newState)`. -/
def pushSkips (s : HistoryState) (newState : Snap) : Prop :=
  0 ≤ s.historyPointer ∧ s.history ≠ [] ∧
    s.history[s.historyPointer.toNat]? = some newState

instance (s : HistoryState) (x : Snap) : Decidable (pushSkips s x) := by
  unfold pushSkips; infer_instance

/-- `pushToHistory` from src/hooks/useSubtitleHistory.ts (the exported
version with the duplicate check): if the current tip (history[pointer])
stringifies equal to the new state, do nothing; otherwise truncate the
history to `slice(0, historyPointer + 1)`, push the clone, `shift()` away
the front element when the length exceeds MAX_HISTORY, and set the pointer
to `min(prev + 1, MAX_HISTORY - 1)`. -/
def pushToHistory (s : HistoryState) (newState : Snap) : HistoryState :=
  if pushSkips s newState then
    s
  else
    { history :=
        if MAX_HISTORY < (s.history.take (s.historyPointer + 1).toNat ++ [newState]).length
        then (s.history.take (s.historyPointer + 1).toNat ++ [newState]).tail
        else s.history.take (s.historyPointer + 1).toNat ++ [newState],
      historyPointer := min (s.historyPointer + 1) ((MAX_HISTORY : Int) - 1) }

/-- `undo`: when `historyPointer > 0`, return the clone of
`history[historyPointer - 1]` and decrement the pointer; otherwise return
null (modelled as `none`) and leave the state alone. -/
def undo (s : HistoryState) : Option Snap × HistoryState :=
  if 0 < s.historyPointer then
    (s.history[(s.historyPointer - 1).toNat]?,
      { s with historyPointer := s.historyPointer - 1 })
  else
    (none, s)

/-- `redo`: when `historyPointer < history.length - 1`, return the clone of
`history[historyPointer + 1]` and increment the pointer; otherwise return
null and leave the state alone. -/
def redo (s : HistoryState) : Option Snap × HistoryState :=
  if s.historyPointer < (s.history.length : Int) - 1 then
    (s.history[(s.historyPointer + 1).toNat]?,
      { s with historyPointer := s.historyPointer + 1 })
  else
    (none, s)

/-- `resetHistory`: empty history, pointer -1. -/
def resetHistory : HistoryState := { history := [], historyPointer := -1 }

/-- One user-visible operation on the history hook. -/
inductive HistStep : HistoryState → HistoryState → Prop
  | push (s : HistoryState) (x : Snap) : HistStep s (pushToHistory s x)
  | undo (s : HistoryState) : HistStep s (undo s).2
  | redo (s : HistoryState) : HistStep s (redo s).2
  | reset (s : HistoryState) : HistStep s resetHistory

/-- States reachable from the initial hook state by any sequence of
`pushToHistory` / `undo` / `redo` / `resetHistory`. -/
inductive Reachable : HistoryState → Prop
  | init : Reachable initialHistory
  | step {s s' : HistoryState} : Reachable s → HistStep s s' → Reachable s'

/-- A concrete subtitle entry used to instantiate theorems with hypotheses. -/
def demoEntry : SubtitleEntry :=
  { index := 1, startTime := "00:00.000", endTime := "00:01.000", text := "hi" }

/-- A concrete snapshot (the empty subtitle list). -/
def demoSnapA : Snap := []

/-- A second, different concrete snapshot. -/
def demoSnapB : Snap := [demoEntry]

/-- The hook state after pushing `demoSnapA` to a fresh history. -/
def demoS1 : HistoryState := pushToHistory initialHistory demoSnapA

/-- The hook state after pushing `demoSnapA` then `demoSnapB`. -/
def demoS2 : HistoryState := pushToHistory demoS1 demoSnapB

/-- Concrete list used to instantiate the split/merge/change theorems. -/
def demoSplitList : List SubtitleEntry :=
  [{ index := 1, startTime := "00:00.000", endTime := "00:10.000", text := "hello world" }]

/-- Concrete three-entry list for the merge witness. -/
def demoMergeList : List SubtitleEntry :=
  [{ index := 1, startTime := "00:00.000", endTime := "00:01.000", text := "a" },
   { index := 2, startTime := "00:01.000", endTime := "00:02.000", text := "b" },
   { index := 7, startTime := "00:02.000", endTime := "00:03.000", text := "c" }]

/-- The structural invariant of the history hook. -/
def HistInv (s : HistoryState) : Prop :=
  s.history.length ≤ MAX_HISTORY ∧ -1 ≤ s.historyPointer ∧
    s.historyPointer ≤ (s.history.length : Int) - 1

/-! ### String and timestamp utilities (utils/srtParser.ts)

JS fractional `number` arithmetic is modelled with exact rationals `ℚ`;
all quantities reached by the claims are small enough that IEEE doubles
compute them exactly at the precision the claims inspect. -/

/-- Numeric value of a decimal digit character. -/
def digitVal (c : Char) : Nat := c.toNat - 48

/-- Value of a digit string, as `parseInt` computes it on an all-digit
input: left fold of `10*acc + digit`. -/
def digitsToNat (cs : List Char) : Nat :=
  cs.foldl (fun n c => 10 * n + digitVal c) 0

/-- `String.prototype.split` with a single-character separator: splits on
every occurrence, keeping empty fragments, and yields one fragment even for
the empty string. -/
def splitOnChar (sep : Char) : List Char → List (List Char)
  | [] => [[]]
  | c :: rest =>
    let r := splitOnChar sep rest
    if c = sep then [] :: r
    else (c :: r.headD []) :: r.tail

/-- Matcher for `TIME_REGEX = /^(\d+):([0-5]\d)\.(\d{3})$/`, returning the
three capture groups (minutes digits, two seconds digits with the first at
most 5, exactly three millisecond digits). -/
def matchTimeRegex (time : String) : Option (String × String × String) :=
  match splitOnChar ':' time.data with
  | [minsL, restL] =>
    match splitOnChar '.' restL with
    | [secsL, msL] =>
      match secsL, msL with
      | [s1, s2], [m1, m2, m3] =>
        if minsL ≠ [] ∧ minsL.all Char.isDigit ∧
            s1.isDigit ∧ s1 ≤ '5' ∧ s2.isDigit ∧
            m1.isDigit ∧ m2.isDigit ∧ m3.isDigit then
          some (⟨minsL⟩, ⟨[s1, s2]⟩, ⟨[m1, m2, m3]⟩)
        else none
      | _, _ => none
    | _ => none
  | _ => none

/-- `validateTimeFormat = (time) => TIME_REGEX.test(time)`. -/
def validateTimeFormat (time : String) : Bool := (matchTimeRegex time).isSome

/-- `timeToSeconds`: 0 when the regex does not match, otherwise
`mins * 60 + secs + ms / 1000`, modelled over exact rationals. The program
computes an IEEE double, which differs from this exact value whenever
ms/1000 is not a dyadic rational: in JS, `timeToSeconds("00:08.200")` is
8.199999999999999289…, strictly below 8.2. -/
def timeToSeconds (time : String) : ℚ :=
  match matchTimeRegex time with
  | none => 0
  | some (m, s, ms) =>
    (digitsToNat m.data : ℚ) * 60 + (digitsToNat s.data : ℚ) +
      (digitsToNat ms.data : ℚ) / 1000

/-- Truncation toward zero, the rounding used by the JS `%` operator. -/
def qTrunc (q : ℚ) : Int := if 0 ≤ q then ⌊q⌋ else -⌊-q⌋

/-- The JS remainder `a % b` on finite numbers: `a - b * trunc(a / b)`
(only ever used here with positive `b`). -/
def jsRemQ (a b : ℚ) : ℚ := a - b * (qTrunc (a / b) : ℚ)

/-- `String.prototype.padStart(n, c)`. -/
def padStart (s : String) (n : Nat) (c : Char) : String :=
  ⟨List.replicate (n - s.data.length) c ++ s.data⟩

/-- `formatSecondsToMMSS`: `MM:SS.mmm` via `Math.floor` of
seconds / 60, seconds % 60 and (seconds % 1) * 1000, each zero-padded.
Also modelled over exact rationals: on the program's doubles
`Math.floor((8.2 % 1) * 1000)` is 199, so a composition through a
non-dyadic value can print one less in the millisecond field than this
model does. -/
def formatSecondsToMMSS (seconds : ℚ) : String :=
  padStart (toString ⌊seconds / 60⌋) 2 '0' ++ ":" ++
    padStart (toString ⌊jsRemQ seconds 60⌋) 2 '0' ++ "." ++
    padStart (toString ⌊jsRemQ seconds 1 * 1000⌋) 3 '0'

/-- The sign-and-digits phase of `parseInt(s, 10) || 0` after whitespace
has been skipped: optional sign, then the decimal digit prefix; 0 when no
digits follow (NaN). -/
def jsParseIntAux : List Char → Int
  | [] => 0
  | c :: rest =>
    if c = '-' then
      if (rest.takeWhile Char.isDigit) = [] then 0
      else -(digitsToNat (rest.takeWhile Char.isDigit) : Int)
    else if c = '+' then
      if (rest.takeWhile Char.isDigit) = [] then 0
      else (digitsToNat (rest.takeWhile Char.isDigit) : Int)
    else
      if ((c :: rest).takeWhile Char.isDigit) = [] then 0
      else (digitsToNat ((c :: rest).takeWhile Char.isDigit) : Int)

/-- `parseInt(s, 10) || 0`: skip leading whitespace, optional sign, read
the decimal digit prefix; yields 0 when no digits are found (NaN). -/
def jsParseInt (s : String) : Int :=
  jsParseIntAux (s.data.dropWhile Char.isWhitespace)

/-- JS `%` on integers (sign of the dividend), used with a positive
modulus. -/
def jsTruncModInt (a : Int) (b : Nat) : Int :=
  if 0 ≤ a then ((a.toNat % b : Nat) : Int) else -(((-a).toNat % b : Nat) : Int)

/-- In `convertToSRT`'s `formatTime`: `let [minsPart, secsPart] =
time.split(':'); if (!secsPart) secsPart = "00.000"` — a missing second
fragment (undefined) and an empty one are both falsy. -/
def srtSecsPart (time : String) : List Char :=
  if ((splitOnChar ':' time.data).getD 1 []) = [] then "00.000".data
  else (splitOnChar ':' time.data).getD 1 []

/-- In `convertToSRT`'s `formatTime`: `let [seconds, millis] =
secsPart.split('.'); if (!millis) millis = "000"`. -/
def srtMillisPart (time : String) : List Char :=
  if ((splitOnChar '.' (srtSecsPart time)).getD 1 []) = [] then "000".data
  else (splitOnChar '.' (srtSecsPart time)).getD 1 []

/-- The local `formatTime` inside `convertToSRT`: re-parse an `M:S.m`-style
string, carry whole minutes into hours (`Math.floor(totalMinutes / 60)` /
`totalMinutes % 60`), and print `HH:MM:SS,mmm`, padding hours, minutes and
seconds to 2 digits and the milliseconds (`padEnd(3, '0').slice(0, 3)`) to
exactly 3. -/
def formatTimeSRT (time : String) : String :=
  padStart (toString (Int.fdiv (jsParseInt ⟨(splitOnChar ':' time.data).headD []⟩) 60)) 2 '0'
    ++ ":" ++
    padStart (toString (jsTruncModInt (jsParseInt ⟨(splitOnChar ':' time.data).headD []⟩) 60))
      2 '0'
    ++ ":" ++
    padStart ⟨(splitOnChar '.' (srtSecsPart time)).headD []⟩ 2 '0'
    ++ "," ++
    ⟨((srtMillisPart time) ++ List.replicate (3 - (srtMillisPart time).length) '0').take 3⟩

/-- `Array.prototype.join(sep)`. -/
def jsJoin (sep : String) : List String → String
  | [] => ""
  | [x] => x
  | x :: y :: xs => x ++ sep ++ jsJoin sep (y :: xs)

/-- `convertToSRT`: for each entry a block
`index \n start --> end \n text \n`, blocks joined with `"\n"`. -/
def convertToSRT (entries : List SubtitleEntry) : String :=
  jsJoin "\n" (entries.map fun e =>
    toString e.index ++ "\n" ++ formatTimeSRT e.startTime ++ " --> " ++
      formatTimeSRT e.endTime ++ "\n" ++ e.text ++ "\n")

/-- `String.prototype.trim`. -/
def jsTrim (s : String) : String :=
  ⟨((s.data.dropWhile Char.isWhitespace).reverse.dropWhile Char.isWhitespace).reverse⟩

/-! ### Segment editing actions (hooks/useSubtitleActions.ts) -/

/-- `.map((sub, idx) => ({ ...sub, index: idx + 1 }))` starting at
position `n`: rewrite every `index` field to its 1-based list position. -/
def reindexFrom (n : Nat) : List SubtitleEntry → List SubtitleEntry
  | [] => []
  | e :: rest => { e with index := (n : Int) + 1 } :: reindexFrom (n + 1) rest

/-- The renumbering map applied by delete/split/merge. -/
def reindex (l : List SubtitleEntry) : List SubtitleEntry := reindexFrom 0 l

/-- `handleDeleteSubtitle`: drop the entry at the given list position
(`filter((_, idx) => idx !== indexToDelete)`), then renumber. -/
def handleDeleteSubtitle (subs : List SubtitleEntry) (indexToDelete : Nat) :
    List SubtitleEntry :=
  reindex ((subs.enum.filter fun p => p.1 != indexToDelete).map Prod.snd)

/-- The four fields of a SubtitleEntry, for `field: keyof SubtitleEntry`. -/
inductive SubField
  | index
  | startTime
  | endTime
  | text
deriving DecidableEq

/-- `value: string | number`. -/
inductive FieldValue
  | str (s : String)
  | num (n : Int)
deriving DecidableEq

/-- `{ ...entry, [field]: value }`. The TS callers only ever pair a field
with a value of its declared type; a mismatched pair is unreachable and
modelled as the identity. -/
def setField (e : SubtitleEntry) (f : SubField) (v : FieldValue) : SubtitleEntry :=
  match f, v with
  | SubField.index, FieldValue.num n => { e with index := n }
  | SubField.startTime, FieldValue.str s => { e with startTime := s }
  | SubField.endTime, FieldValue.str s => { e with endTime := s }
  | SubField.text, FieldValue.str s => { e with text := s }
  | _, _ => e

/-- `typeof value === 'string' && validateTimeFormat(value)`. -/
def isValidTimeStr : FieldValue → Bool
  | FieldValue.str s => validateTimeFormat s
  | FieldValue.num _ => false

/-- The string carried by a FieldValue (only inspected on `str` values). -/
def strOf : FieldValue → String
  | FieldValue.str s => s
  | FieldValue.num _ => ""

/-- `handleSubtitleChange`: set the named field of the entry at `index`;
when the value is a validated time string, cascade an `endTime` edit into
the right neighbour's `startTime`, or else a `startTime` edit into the left
neighbour's `endTime`. Modelled for in-bounds indices (the UI only passes
positions of rendered rows). -/
def handleSubtitleChange (subs : List SubtitleEntry) (index : Nat)
    (field : SubField) (value : FieldValue) : List SubtitleEntry :=
  if isValidTimeStr value then
    if field = SubField.endTime ∧ index + 1 < subs.length then
      (subs.set index (setField (subs[index]?.getD default) field value)).set (index + 1)
        { ((subs.set index (setField (subs[index]?.getD default) field value))[index + 1]?.getD
            default) with startTime := strOf value }
    else if field = SubField.startTime ∧ 0 < index then
      (subs.set index (setField (subs[index]?.getD default) field value)).set (index - 1)
        { ((subs.set index (setField (subs[index]?.getD default) field value))[index - 1]?.getD
            default) with endTime := strOf value }
    else subs.set index (setField (subs[index]?.getD default) field value)
  else subs.set index (setField (subs[index]?.getD default) field value)

/-- `handleSplitSegment`: guard on a missing segment or a cursor at/outside
the text boundary; otherwise split the text at the cursor (JS `slice` +
`trim`, `'...'` when a side trims empty), interpolate the boundary time
proportionally to the cursor position, splice the two halves in place of
the original entry, and renumber. -/
def handleSplitSegment (subs : List SubtitleEntry) (indexToSplit : Nat)
    (cursorPosition : Nat) : List SubtitleEntry :=
  match subs[indexToSplit]? with
  | none => subs
  | some segment =>
    if cursorPosition = 0 ∨ segment.text.length ≤ cursorPosition then subs
    else
      reindex (subs.take indexToSplit ++
        { index := segment.index, startTime := segment.startTime,
          endTime := formatSecondsToMMSS (timeToSeconds segment.startTime +
            (timeToSeconds segment.endTime - timeToSeconds segment.startTime) *
              ((cursorPosition : ℚ) / (segment.text.length : ℚ))),
          text := if jsTrim ⟨segment.text.data.take cursorPosition⟩ = "" then "..."
            else jsTrim ⟨segment.text.data.take cursorPosition⟩ } ::
        { index := segment.index + 1,
          startTime := formatSecondsToMMSS (timeToSeconds segment.startTime +
            (timeToSeconds segment.endTime - timeToSeconds segment.startTime) *
              ((cursorPosition : ℚ) / (segment.text.length : ℚ))),
          endTime := segment.endTime,
          text := if jsTrim ⟨segment.text.data.drop cursorPosition⟩ = "" then "..."
            else jsTrim ⟨segment.text.data.drop cursorPosition⟩ } ::
        subs.drop (indexToSplit + 1))

/-- The adjacent-pair scan of `isSelectionConsecutive`. -/
def consecutiveCheck : List Nat → Bool
  | [] => true
  | [_] => true
  | a :: b :: rest => (b == a + 1) && consecutiveCheck (b :: rest)

/-- Ordered insert, the building block used to model the JS sort. -/
def insertSorted (a : Nat) : List Nat → List Nat
  | [] => [a]
  | b :: rest => if a ≤ b then a :: b :: rest else b :: insertSorted a rest

/-- `[...selectedIndices].sort((a, b) => a - b)`: the ascending reordering
of the selection (an insertion sort; on lists of naturals any stable
comparison sort produces this same list). -/
def sortSel (sel : List Nat) : List Nat := sel.foldr insertSorted []

/-- `isSelectionConsecutive`: false for fewer than 2 selected, else the
sorted selection must ascend in steps of exactly 1. -/
def isSelectionConsecutive (sel : List Nat) : Bool :=
  if sel.length < 2 then false else consecutiveCheck (sortSel sel)

/-- `handleMergeSelected`: on a consecutive selection, splice the selected
run into one entry (texts joined with single spaces, first startTime, last
endTime), renumber, and clear the selection; otherwise do nothing.
Out-of-bounds selected positions (which would throw in JS) are modelled
with default entries and excluded by the claims. -/
def handleMergeSelected (subs : List SubtitleEntry) (sel : List Nat) :
    List SubtitleEntry × List Nat :=
  if isSelectionConsecutive sel = false then (subs, sel)
  else
    (reindex (subs.take ((sortSel sel).getD 0 0) ++
      { index := ((sortSel sel).getD 0 0 : Int) + 1,
        startTime := (subs.getD ((sortSel sel).getD 0 0) default).startTime,
        endTime := (subs.getD ((sortSel sel).getD ((sortSel sel).length - 1) 0)
          default).endTime,
        text := jsJoin " " ((sortSel sel).map fun i => (subs.getD i default).text) } ::
      subs.drop ((sortSel sel).getD ((sortSel sel).length - 1) 0 + 1)), [])

theorem reindexFrom_length (n : Nat) (l : List SubtitleEntry) :
    (reindexFrom n l).length = l.length := by
  induction l generalizing n with
  | nil => rfl
  | cons e rest ih => simp [reindexFrom, ih]

theorem reindexFrom_getElem? (n i : Nat) (l : List SubtitleEntry) :
    (reindexFrom n l)[i]? = (l[i]?).map fun e => { e with index := ((n + i : Nat) : Int) + 1 } := by
  induction l generalizing n i with
  | nil => simp [reindexFrom]
  | cons e rest ih =>
    cases i with
    | zero => simp [reindexFrom]
    | succ j =>
      simp only [reindexFrom, List.getElem?_cons_succ, ih (n + 1) j]
      have : n + 1 + j = n + (j + 1) := by omega
      rw [this]

theorem reindex_getElem? (l : List SubtitleEntry) (i : Nat) :
    (reindex l)[i]? = (l[i]?).map fun e => { e with index := (i : Int) + 1 } := by
  rw [reindex, reindexFrom_getElem?]
  simp

theorem reindex_index_eq (l : List SubtitleEntry) (j : Nat) (e : SubtitleEntry)
    (h : (reindex l)[j]? = some e) : e.index = (j : Int) + 1 := by
  rw [reindex_getElem?] at h
  cases hl : l[j]? with
  | none => rw [hl] at h; simp at h
  | some x => rw [hl] at h; simp at h; rw [← h]

theorem handleSplitSegment_pos (subs : List SubtitleEntry) (i c : Nat)
    (seg : SubtitleEntry) (hseg : subs[i]? = some seg)
    (hc : ¬(c = 0 ∨ seg.text.length ≤ c)) :
    handleSplitSegment subs i c =
      reindex (subs.take i ++
        { index := seg.index, startTime := seg.startTime,
          endTime := formatSecondsToMMSS (timeToSeconds seg.startTime +
            (timeToSeconds seg.endTime - timeToSeconds seg.startTime) *
              ((c : ℚ) / (seg.text.length : ℚ))),
          text := if jsTrim ⟨seg.text.data.take c⟩ = "" then "..."
            else jsTrim ⟨seg.text.data.take c⟩ } ::
        { index := seg.index + 1,
          startTime := formatSecondsToMMSS (timeToSeconds seg.startTime +
            (timeToSeconds seg.endTime - timeToSeconds seg.startTime) *
              ((c : ℚ) / (seg.text.length : ℚ))),
          endTime := seg.endTime,
          text := if jsTrim ⟨seg.text.data.drop c⟩ = "" then "..."
            else jsTrim ⟨seg.text.data.drop c⟩ } ::
        subs.drop (i + 1)) := by
  unfold handleSplitSegment
  rw [hseg]
  exact if_neg hc

theorem handleMergeSelected_pos (subs : List SubtitleEntry) (sel : List Nat)
    (h : isSelectionConsecutive sel = true) :
    handleMergeSelected subs sel =
      (reindex (subs.take ((sortSel sel).getD 0 0) ++
        { index := ((sortSel sel).getD 0 0 : Int) + 1,
          startTime := (subs.getD ((sortSel sel).getD 0 0) default).startTime,
          endTime := (subs.getD ((sortSel sel).getD ((sortSel sel).length - 1) 0)
            default).endTime,
          text := jsJoin " " ((sortSel sel).map fun i => (subs.getD i default).text) } ::
        subs.drop ((sortSel sel).getD ((sortSel sel).length - 1) 0 + 1)), []) := by
  unfold handleMergeSelected
  rw [if_neg (by simp [h])]

/-- Claim C3: after handleDeleteSubtitle, and after handleSplitSegment /
handleMergeSelected whenever their guards let them change the list, the
entry stored at array position i carries index field i + 1, whatever index
fields the input list arrived with. -/
theorem splice_ops_reindex :
    (∀ (subs : List SubtitleEntry) (d j : Nat) (e : SubtitleEntry),
        (handleDeleteSubtitle subs d)[j]? = some e → e.index = (j : Int) + 1) ∧
    (∀ (subs : List SubtitleEntry) (i c : Nat) (seg : SubtitleEntry) (j : Nat)
        (e : SubtitleEntry), subs[i]? = some seg → 0 < c → c < seg.text.length →
        (handleSplitSegment subs i c)[j]? = some e → e.index = (j : Int) + 1) ∧
    (∀ (subs : List SubtitleEntry) (sel : List Nat) (j : Nat) (e : SubtitleEntry),
        isSelectionConsecutive sel = true →
        (handleMergeSelected subs sel).1[j]? = some e → e.index = (j : Int) + 1) := by
  refine ⟨?_, ?_, ?_⟩
  · intro subs d j e h
    exact reindex_index_eq _ j e h
  · intro subs i c seg j e hseg hc hlt h
    rw [handleSplitSegment_pos subs i c seg hseg (by omega)] at h
    exact reindex_index_eq _ j e h
  · intro subs sel j e hcons h
    rw [handleMergeSelected_pos subs sel hcons] at h
    exact reindex_index_eq _ j e h

/-- Witness for C3: deleting position 0 from a two-entry list with
scrambled index fields renumbers the surviving entry to 1. -/
theorem splice_ops_reindex_witness :
    (handleDeleteSubtitle [{ index := 5, startTime := "a", endTime := "b", text := "t1" },
      { index := 9, startTime := "c", endTime := "d", text := "t2" }] 0)[0]? =
        some { index := 1, startTime := "c", endTime := "d", text := "t2" } ∧
    ({ index := 1, startTime := "c", endTime := "d", text := "t2" } :
      SubtitleEntry).index = (0 : Int) + 1 :=
  ⟨by decide,
    splice_ops_reindex.1
      [{ index := 5, startTime := "a", endTime := "b", text := "t1" },
        { index := 9, startTime := "c", endTime := "d", text := "t2" }] 0 0
      { index := 1, startTime := "c", endTime := "d", text := "t2" } (by decide)⟩

/-- Claim C5: with an existing segment and a cursor strictly inside its
text, handleSplitSegment replaces entry i by two entries (length grows by
one): the left keeps the original startTime and gets the trimmed left text
('...' when empty), the right keeps the original endTime and gets the
trimmed right text ('...' when empty), both share the interpolated boundary
time formatSecondsToMMSS(start + (end - start) * c / textLength), and all
other entries survive in order (renumbered); when the segment is missing or
the cursor is at/outside the text boundary, the list is unchanged. -/
theorem split_segment_spec (subs : List SubtitleEntry) (i c : Nat) :
    (∀ seg : SubtitleEntry, subs[i]? = some seg → 0 < c → c < seg.text.length →
      (handleSplitSegment subs i c).length = subs.length + 1 ∧
      (handleSplitSegment subs i c)[i]? = some
        { index := (i : Int) + 1, startTime := seg.startTime,
          endTime := formatSecondsToMMSS (timeToSeconds seg.startTime +
            (timeToSeconds seg.endTime - timeToSeconds seg.startTime) *
              (c : ℚ) / (seg.text.length : ℚ)),
          text := if jsTrim ⟨seg.text.data.take c⟩ = "" then "..."
            else jsTrim ⟨seg.text.data.take c⟩ } ∧
      (handleSplitSegment subs i c)[i + 1]? = some
        { index := (i : Int) + 2,
          startTime := formatSecondsToMMSS (timeToSeconds seg.startTime +
            (timeToSeconds seg.endTime - timeToSeconds seg.startTime) *
              (c : ℚ) / (seg.text.length : ℚ)),
          endTime := seg.endTime,
          text := if jsTrim ⟨seg.text.data.drop c⟩ = "" then "..."
            else jsTrim ⟨seg.text.data.drop c⟩ } ∧
      (∀ j, j < i → (handleSplitSegment subs i c)[j]? =
        (subs[j]?).map fun e => { e with index := (j : Int) + 1 }) ∧
      (∀ j, i + 1 < j → (handleSplitSegment subs i c)[j]? =
        (subs[j - 1]?).map fun e => { e with index := (j : Int) + 1 })) ∧
    (subs[i]? = none → handleSplitSegment subs i c = subs) ∧
    (c = 0 → handleSplitSegment subs i c = subs) ∧
    (∀ seg : SubtitleEntry, subs[i]? = some seg → seg.text.length ≤ c →
      handleSplitSegment subs i c = subs) := by
  refine ⟨?_, ?_, ?_, ?_⟩
  · intro seg hseg hc hlt
    have heq := handleSplitSegment_pos subs i c seg hseg (by omega)
    rw [show (timeToSeconds seg.endTime - timeToSeconds seg.startTime) *
        ((c : ℚ) / (seg.text.length : ℚ)) =
        (timeToSeconds seg.endTime - timeToSeconds seg.startTime) *
          (c : ℚ) / (seg.text.length : ℚ) from (mul_div_assoc _ _ _).symm] at heq
    have hlen_i : i < subs.length := (List.getElem?_eq_some.mp hseg).1
    have htake : (subs.take i).length = i := by
      simp [List.length_take]; omega
    refine ⟨?_, ?_, ?_, ?_, ?_⟩
    · rw [heq, reindex, reindexFrom_length]
      simp [List.length_append, List.length_drop]
      omega
    · rw [heq, reindex_getElem?, List.getElem?_append_right (by omega), htake]
      simp
    · rw [heq, reindex_getElem?, List.getElem?_append_right (by omega), htake]
      have h1 : i + 1 - i = 1 := by omega
      rw [h1]
      simp
      omega
    · intro j hj
      rw [heq, reindex_getElem?, List.getElem?_append_left (by omega),
        List.getElem?_take, if_pos hj]
    · intro j hj
      rw [heq, reindex_getElem?, List.getElem?_append_right (by omega), htake]
      have h2 : j - i = (j - i - 2) + 1 + 1 := by omega
      rw [h2, List.getElem?_cons_succ, List.getElem?_cons_succ, List.getElem?_drop]
      have h3 : i + 1 + (j - i - 2) = j - 1 := by omega
      rw [h3]
  · intro h
    unfold handleSplitSegment
    rw [h]
  · intro h
    cases hseg : subs[i]? with
    | none =>
      unfold handleSplitSegment
      rw [hseg]
    | some seg =>
      unfold handleSplitSegment
      rw [hseg]
      exact if_pos (Or.inl h)
  · intro seg hseg hle
    unfold handleSplitSegment
    rw [hseg]
    exact if_pos (Or.inr hle)

/-- Witness for C5: splitting "hello world" at cursor 5 in a one-entry
list doubles it into two entries. -/
theorem split_segment_spec_witness :
    (handleSplitSegment demoSplitList 0 5).length = demoSplitList.length + 1 :=
  ((split_segment_spec demoSplitList 0 5).1
      { index := 1, startTime := "00:00.000", endTime := "00:10.000", text := "hello world" }
      (by decide) (by decide) (by decide)).1

theorem insertSorted_length (a : Nat) (l : List Nat) :
    (insertSorted a l).length = l.length + 1 := by
  induction l with
  | nil => rfl
  | cons b rest ih =>
    simp only [insertSorted]
    split <;> simp [ih]

theorem sortSel_length (sel : List Nat) : (sortSel sel).length = sel.length := by
  induction sel with
  | nil => rfl
  | cons a rest ih =>
    show (insertSorted a (sortSel rest)).length = rest.length + 1
    rw [insertSorted_length, ih]

theorem consecutiveCheck_range' (k f : Nat) :
    consecutiveCheck (List.range' f k) = true := by
  induction k generalizing f with
  | zero => rfl
  | succ k ih =>
    cases k with
    | zero => rfl
    | succ k' =>
      show consecutiveCheck (f :: (f + 1) :: List.range' (f + 2) k') = true
      have h1 := ih (f + 1)
      simp only [consecutiveCheck, Nat.beq_eq, beq_self_eq_true, Bool.true_and]
      exact h1

theorem sortSel_consecutive (sel : List Nat) (f k : Nat)
    (hsort : sortSel sel = List.range' f k) (hk : 2 ≤ k) :
    isSelectionConsecutive sel = true := by
  have hlen : sel.length = k := by
    have h1 := sortSel_length sel
    rw [hsort, List.length_range'] at h1
    omega
  unfold isSelectionConsecutive
  rw [if_neg (by omega), hsort]
  exact consecutiveCheck_range' k f

theorem range'_getD_zero (f k : Nat) (hk : 1 ≤ k) :
    (List.range' f k).getD 0 0 = f := by
  obtain ⟨k', rfl⟩ : ∃ k', k = k' + 1 := ⟨k - 1, by omega⟩
  rfl

theorem range'_getD_last (f k : Nat) (hk : 1 ≤ k) :
    (List.range' f k).getD (k - 1) 0 = f + k - 1 := by
  have hlt : k - 1 < (List.range' f k).length := by
    simp [List.length_range']; omega
  rw [List.getD_eq_getElem?_getD, List.getElem?_eq_getElem hlt]
  simp [List.getElem_range']
  omega

/-- Claim C4: when the sorted selection is a consecutive run
f, f+1, ..., f+k-1 of length k >= 2 inside the list bounds,
handleMergeSelected replaces those k entries by a single one whose text is
their texts joined by single spaces in list order, whose startTime is the
first selected entry's and whose endTime is the last selected entry's,
shrinking the list to n - k + 1 entries, keeping all entries before and
after the run (renumbered), and clearing the selection; a non-consecutive
selection (including fewer than two entries) leaves everything unchanged. -/
theorem merge_selected_spec (subs : List SubtitleEntry) (sel : List Nat) (f k : Nat) :
    (sortSel sel = List.range' f k → 2 ≤ k → f + k ≤ subs.length →
      (handleMergeSelected subs sel).2 = [] ∧
      (handleMergeSelected subs sel).1.length = subs.length - k + 1 ∧
      (handleMergeSelected subs sel).1[f]? = some
        { index := (f : Int) + 1,
          startTime := (subs.getD f default).startTime,
          endTime := (subs.getD (f + k - 1) default).endTime,
          text := jsJoin " " ((List.range' f k).map fun idx => (subs.getD idx default).text) } ∧
      (∀ j, j < f → (handleMergeSelected subs sel).1[j]? =
        (subs[j]?).map fun e => { e with index := (j : Int) + 1 }) ∧
      (∀ j, f < j → (handleMergeSelected subs sel).1[j]? =
        (subs[j + k - 1]?).map fun e => { e with index := (j : Int) + 1 })) ∧
    (isSelectionConsecutive sel = false → handleMergeSelected subs sel = (subs, sel)) := by
  constructor
  · intro hsort hk hbound
    have hcons := sortSel_consecutive sel f k hsort hk
    have heq := handleMergeSelected_pos subs sel hcons
    rw [hsort, List.length_range', range'_getD_zero f k (by omega),
      range'_getD_last f k (by omega),
      show f + k - 1 + 1 = f + k from by omega] at heq
    have htake : (subs.take f).length = f := by
      simp [List.length_take]; omega
    refine ⟨?_, ?_, ?_, ?_, ?_⟩
    · rw [heq]
    · rw [heq]
      dsimp only
      rw [reindex, reindexFrom_length]
      simp [List.length_append, List.length_drop]
      omega
    · rw [heq]
      dsimp only
      rw [reindex_getElem?, List.getElem?_append_right (by omega), htake]
      simp
    · intro j hj
      rw [heq]
      dsimp only
      rw [reindex_getElem?, List.getElem?_append_left (by omega),
        List.getElem?_take, if_pos hj]
    · intro j hj
      rw [heq]
      dsimp only
      rw [reindex_getElem?, List.getElem?_append_right (by omega), htake]
      have h2 : j - f = (j - f - 1) + 1 := by omega
      rw [h2, List.getElem?_cons_succ, List.getElem?_drop]
      have h3 : f + k + (j - f - 1) = j + k - 1 := by omega
      rw [h3]
  · intro h
    unfold handleMergeSelected
    rw [if_pos h]

/-- Witness for C4: merging the consecutive selection [1, 2] in a
three-entry list clears the selection. -/
theorem merge_selected_spec_witness :
    (handleMergeSelected demoMergeList [1, 2]).2 = [] :=
  ((merge_selected_spec demoMergeList [1, 2] 1 2).1
    (by decide) (by decide) (by decide)).1

/-- Claim C6: handleSubtitleChange(i, field, value) on an in-bounds index
keeps the list length, sets exactly entry i's named field to the value,
and, precisely when the value is a validateTimeFormat-accepted string,
additionally mirrors an endTime edit into entry i+1's startTime (when a
right neighbour exists) or a startTime edit into entry i-1's endTime (when
a left neighbour exists); every other entry, and every other field of the
touched entries, is unchanged. -/
theorem subtitle_change_frame (subs : List SubtitleEntry) (i : Nat) (f : SubField)
    (v : FieldValue) (hi : i < subs.length) :
    (handleSubtitleChange subs i f v).length = subs.length ∧
    (∀ j e, subs[j]? = some e →
      (handleSubtitleChange subs i f v)[j]? = some (
        if j = i then setField e f v
        else if isValidTimeStr v = true ∧ f = SubField.endTime ∧ j = i + 1 then
          { e with startTime := strOf v }
        else if isValidTimeStr v = true ∧ f = SubField.startTime ∧ j + 1 = i then
          { e with endTime := strOf v }
        else e)) := by
  unfold handleSubtitleChange
  by_cases hv : isValidTimeStr v = true
  · rw [if_pos hv]
    by_cases hce : f = SubField.endTime ∧ i + 1 < subs.length
    · rw [if_pos hce]
      refine ⟨by simp [List.length_set], ?_⟩
      intro j e hje
      have hjn : j < subs.length := (List.getElem?_eq_some.mp hje).1
      by_cases hj0 : j = i
      · subst hj0
        rw [List.getElem?_set, if_neg (by omega), List.getElem?_set, if_pos rfl,
          if_pos hi, hje, Option.getD_some, if_pos rfl]
      · by_cases hj1 : j = i + 1
        · subst hj1
          rw [List.getElem?_set, if_pos rfl,
            if_pos (by rw [List.length_set]; exact hce.2),
            List.getElem?_set, if_neg (by omega), hje, Option.getD_some,
            if_neg (by omega), if_pos ⟨hv, hce.1, rfl⟩]
        · rw [List.getElem?_set, if_neg (by omega), List.getElem?_set,
            if_neg (by omega), hje, if_neg hj0, if_neg (fun h => hj1 h.2.2),
            if_neg (by intro h; rw [hce.1] at h; exact absurd h.2.1 (by decide))]
    · rw [if_neg hce]
      by_cases hcs : f = SubField.startTime ∧ 0 < i
      · rw [if_pos hcs]
        refine ⟨by simp [List.length_set], ?_⟩
        intro j e hje
        have hjn : j < subs.length := (List.getElem?_eq_some.mp hje).1
        by_cases hj0 : j = i
        · subst hj0
          rw [List.getElem?_set, if_neg (by omega), List.getElem?_set, if_pos rfl,
            if_pos hi, hje, Option.getD_some, if_pos rfl]
        · by_cases hjm : j + 1 = i
          · have hidx : i - 1 = j := by omega
            rw [List.getElem?_set, if_pos hidx,
              if_pos (by rw [List.length_set]; omega),
              List.getElem?_set, if_neg (by omega), hidx, hje, Option.getD_some,
              if_neg hj0,
              if_neg (by intro h; rw [hcs.1] at h; exact absurd h.2.1 (by decide)),
              if_pos ⟨hv, hcs.1, hjm⟩]
          · rw [List.getElem?_set, if_neg (by omega), List.getElem?_set,
              if_neg (by omega), hje, if_neg hj0,
              if_neg (by intro h; rw [hcs.1] at h; exact absurd h.2.1 (by decide)),
              if_neg (fun h => hjm h.2.2)]
      · rw [if_neg hcs]
        refine ⟨by simp [List.length_set], ?_⟩
        intro j e hje
        have hjn : j < subs.length := (List.getElem?_eq_some.mp hje).1
        by_cases hj0 : j = i
        · subst hj0
          rw [List.getElem?_set, if_pos rfl, if_pos hi, hje, Option.getD_some,
            if_pos rfl]
        · rw [List.getElem?_set, if_neg (by omega), hje, if_neg hj0,
            if_neg (by intro h; obtain ⟨-, hf, hj⟩ := h; exact hce ⟨hf, by omega⟩),
            if_neg (by intro h; obtain ⟨-, hf, hj⟩ := h; exact hcs ⟨hf, by omega⟩)]
  · rw [if_neg hv]
    refine ⟨by simp [List.length_set], ?_⟩
    intro j e hje
    by_cases hj0 : j = i
    · subst hj0
      rw [List.getElem?_set, if_pos rfl, if_pos hi, hje, Option.getD_some,
        if_pos rfl]
    · rw [List.getElem?_set, if_neg (by omega), hje, if_neg hj0,
        if_neg (fun h => hv h.1), if_neg (fun h => hv h.1)]

/-- Witness for C6: editing entry 0's endTime with a valid time in a
two-entry list keeps the length at 2. -/
theorem subtitle_change_frame_witness :
    (handleSubtitleChange
      [{ index := 1, startTime := "00:00.000", endTime := "00:01.000", text := "a" },
       { index := 2, startTime := "00:01.000", endTime := "00:02.000", text := "b" }]
      0 SubField.endTime (FieldValue.str "00:01.500")).length =
    ([{ index := 1, startTime := "00:00.000", endTime := "00:01.000", text := "a" },
      { index := 2, startTime := "00:01.000", endTime := "00:02.000", text := "b" }] :
        List SubtitleEntry).length :=
  (subtitle_change_frame
    [{ index := 1, startTime := "00:00.000", endTime := "00:01.000", text := "a" },
     { index := 2, startTime := "00:01.000", endTime := "00:02.000", text := "b" }]
    0 SubField.endTime (FieldValue.str "00:01.500") (by decide)).1

theorem histInv_push (s : HistoryState) (x : Snap) (ih : HistInv s) :
    HistInv (pushToHistory s x) := by
  obtain ⟨h50, hlo, hhi⟩ := ih
  by_cases hdup : pushSkips s x
  · rw [pushToHistory, if_pos hdup]; exact ⟨h50, hlo, hhi⟩
  · rw [pushToHistory, if_neg hdup]
    unfold HistInv MAX_HISTORY at *
    split <;>
      simp only [List.length_tail, List.length_append, List.length_take,
        List.length_singleton] at * <;>
      refine ⟨by omega, by omega, by omega⟩

theorem histInv_undo (s : HistoryState) (ih : HistInv s) : HistInv (Srt.undo s).2 := by
  obtain ⟨h50, hlo, hhi⟩ := ih
  rw [Srt.undo]
  split
  · exact ⟨h50, by dsimp only; omega, by dsimp only; omega⟩
  · exact ⟨h50, hlo, hhi⟩

theorem histInv_redo (s : HistoryState) (ih : HistInv s) : HistInv (Srt.redo s).2 := by
  obtain ⟨h50, hlo, hhi⟩ := ih
  rw [Srt.redo]
  split
  · exact ⟨h50, by dsimp only; omega, by dsimp only; omega⟩
  · exact ⟨h50, hlo, hhi⟩

theorem reachable_inv {s : HistoryState} (h : Reachable s) : HistInv s := by
  induction h with
  | init => exact ⟨by simp [initialHistory, MAX_HISTORY], by simp [initialHistory], by simp [initialHistory]⟩
  | step _ hstep ih =>
    cases hstep with
    | push x => exact histInv_push _ x ih
    | undo => exact histInv_undo _ ih
    | redo => exact histInv_redo _ ih
    | reset => exact ⟨by simp [resetHistory, MAX_HISTORY], by simp [resetHistory], by simp [resetHistory]⟩

/-- Claim C1: starting from the initial state (empty history, pointer -1),
after every sequence of pushToHistory / undo / redo / resetHistory operations
the history never holds more than 50 snapshots, and
-1 <= historyPointer <= history.length - 1 always holds. -/
theorem history_invariant_bounded (s : HistoryState) (h : Reachable s) :
    s.history.length ≤ 50 ∧
      -1 ≤ s.historyPointer ∧ s.historyPointer ≤ (s.history.length : Int) - 1 := by
  obtain ⟨h50, hlo, hhi⟩ := reachable_inv h
  exact ⟨by simpa [MAX_HISTORY] using h50, hlo, hhi⟩

/-- Witness for C1 at the initial state. -/
theorem history_invariant_bounded_witness :
    initialHistory.history.length ≤ 50 ∧
      -1 ≤ initialHistory.historyPointer ∧
      initialHistory.historyPointer ≤ (initialHistory.history.length : Int) - 1 :=
  history_invariant_bounded initialHistory Reachable.init

/-- Claim C2: from any reachable state with historyPointer = p > 0, undo
returns the snapshot stored at position p-1 and moves the pointer to p-1
(the history list itself is untouched); an immediately following redo returns
the snapshot stored at position p and restores the pointer to p, i.e. the
round trip restores the original state. -/
theorem undo_redo_round_trip (s : HistoryState) (hs : Reachable s)
    (hp : 0 < s.historyPointer) :
    (undo s).1 = s.history[(s.historyPointer - 1).toNat]? ∧
    ((undo s).1).isSome = true ∧
    (undo s).2.history = s.history ∧
    (undo s).2.historyPointer = s.historyPointer - 1 ∧
    (redo (undo s).2).1 = s.history[s.historyPointer.toNat]? ∧
    ((redo (undo s).2).1).isSome = true ∧
    (redo (undo s).2).2 = s := by
  obtain ⟨h50, hlo, hhi⟩ := reachable_inv hs
  rw [Srt.undo, if_pos hp]
  have h1 : (s.historyPointer - 1).toNat < s.history.length := by omega
  have hredo : ({ s with historyPointer := s.historyPointer - 1 } :
      HistoryState).historyPointer <
      (({ s with historyPointer := s.historyPointer - 1 } :
        HistoryState).history.length : Int) - 1 := by
    dsimp only; omega
  refine ⟨rfl, ?_, rfl, rfl, ?_, ?_, ?_⟩
  · rw [List.getElem?_eq_getElem h1]; rfl
  · rw [Srt.redo, if_pos hredo]
    dsimp only
    congr 2
    omega
  · rw [Srt.redo, if_pos hredo]
    dsimp only
    have he : (s.historyPointer - 1 + 1).toNat = s.historyPointer.toNat := by omega
    have h2 : s.historyPointer.toNat < s.history.length := by omega
    rw [he, List.getElem?_eq_getElem h2]; rfl
  · rw [Srt.redo, if_pos hredo]
    dsimp only
    cases s with
    | mk h p => dsimp only; congr 1; omega

/-- Witness for C2 at the concrete reachable state `demoS2`
(two successive pushes from a fresh history). -/
theorem undo_redo_round_trip_witness :
    (undo demoS2).1 = demoS2.history[(demoS2.historyPointer - 1).toNat]? ∧
    ((undo demoS2).1).isSome = true ∧
    (undo demoS2).2.history = demoS2.history ∧
    (undo demoS2).2.historyPointer = demoS2.historyPointer - 1 ∧
    (redo (undo demoS2).2).1 = demoS2.history[demoS2.historyPointer.toNat]? ∧
    ((redo (undo demoS2).2).1).isSome = true ∧
    (redo (undo demoS2).2).2 = demoS2 :=
  undo_redo_round_trip demoS2
    (Reachable.step (Reachable.step Reachable.init (HistStep.push initialHistory demoSnapA))
      (HistStep.push demoS1 demoSnapB))
    (by decide)

/-- Claim C7: a pushToHistory that is not skipped by the duplicate check,
from any reachable state with pointer p, leaves the history equal to the
first p+1 old snapshots followed by the pushed snapshot (dropping the
oldest when that would exceed 50), sets the pointer to history.length - 1,
and makes an immediately following redo return null (leaving the state
unchanged): the snapshots that were ahead of the pointer are discarded. -/
theorem push_linear_history (s : HistoryState) (x : Snap) (hs : Reachable s)
    (hch : ¬ pushSkips s x) :
    (pushToHistory s x).history =
      (if (s.history.take (s.historyPointer + 1).toNat ++ [x]).length ≤ 50
        then s.history.take (s.historyPointer + 1).toNat ++ [x]
        else (s.history.take (s.historyPointer + 1).toNat ++ [x]).tail) ∧
    (pushToHistory s x).historyPointer =
      ((pushToHistory s x).history.length : Int) - 1 ∧
    (redo (pushToHistory s x)).1 = none ∧
    (redo (pushToHistory s x)).2 = pushToHistory s x := by
  obtain ⟨h50, hlo, hhi⟩ := reachable_inv hs
  rw [pushToHistory, if_neg hch]
  have hlen : (s.history.take (s.historyPointer + 1).toNat ++ [x]).length
      = (s.historyPointer + 1).toNat + 1 := by
    simp only [List.length_append, List.length_take, List.length_singleton]
    unfold MAX_HISTORY at h50
    omega
  have hpt : ¬ ((if MAX_HISTORY < (s.history.take (s.historyPointer + 1).toNat ++ [x]).length
        then (s.history.take (s.historyPointer + 1).toNat ++ [x]).tail
        else s.history.take (s.historyPointer + 1).toNat ++ [x]).length : Int) - 1 <
      ((if MAX_HISTORY < (s.history.take (s.historyPointer + 1).toNat ++ [x]).length
        then (s.history.take (s.historyPointer + 1).toNat ++ [x]).tail
        else s.history.take (s.historyPointer + 1).toNat ++ [x]).length : Int) - 1 := by
    omega
  constructor
  · dsimp only
    unfold MAX_HISTORY
    split <;> split <;> first | rfl | omega
  · have hmin : min (s.historyPointer + 1) ((MAX_HISTORY : Int) - 1) =
        ((if MAX_HISTORY < (s.history.take (s.historyPointer + 1).toNat ++ [x]).length
          then (s.history.take (s.historyPointer + 1).toNat ++ [x]).tail
          else s.history.take (s.historyPointer + 1).toNat ++ [x]).length : Int) - 1 := by
      split <;> simp only [List.length_tail, hlen] <;> unfold MAX_HISTORY at * <;> omega
    refine ⟨hmin, ?_, ?_⟩
    · rw [Srt.redo]
      rw [if_neg]
      dsimp only
      rw [hmin]
      omega
    · rw [Srt.redo]
      rw [if_neg]
      dsimp only
      rw [hmin]
      omega

/-- Witness for C7: pushing a different snapshot onto `demoS1`. -/
theorem push_linear_history_witness :
    (pushToHistory demoS1 demoSnapB).history =
      (if (demoS1.history.take (demoS1.historyPointer + 1).toNat ++ [demoSnapB]).length ≤ 50
        then demoS1.history.take (demoS1.historyPointer + 1).toNat ++ [demoSnapB]
        else (demoS1.history.take (demoS1.historyPointer + 1).toNat ++ [demoSnapB]).tail) ∧
    (pushToHistory demoS1 demoSnapB).historyPointer =
      ((pushToHistory demoS1 demoSnapB).history.length : Int) - 1 ∧
    (redo (pushToHistory demoS1 demoSnapB)).1 = none ∧
    (redo (pushToHistory demoS1 demoSnapB)).2 = pushToHistory demoS1 demoSnapB :=
  push_linear_history demoS1 demoSnapB
    (Reachable.step Reachable.init (HistStep.push initialHistory demoSnapA))
    (by decide)

/-- Claim C10: for every reachable state, undo returns null iff the pointer
is at most 0, redo returns null iff the pointer is at least
history.length - 1; in the null case the state is unchanged; and after
exactly one push to a fresh history both undo and redo return null, so the
first pushed state can never be undone away. -/
theorem undo_redo_null_boundary (s : HistoryState) (hs : Reachable s) :
    ((undo s).1 = none ↔ s.historyPointer ≤ 0) ∧
    ((redo s).1 = none ↔ (s.history.length : Int) - 1 ≤ s.historyPointer) ∧
    ((undo s).1 = none → (undo s).2 = s) ∧
    ((redo s).1 = none → (redo s).2 = s) ∧
    (∀ x : Snap, (undo (pushToHistory initialHistory x)).1 = none ∧
      (redo (pushToHistory initialHistory x)).1 = none) := by
  obtain ⟨h50, hlo, hhi⟩ := reachable_inv hs
  have hfresh : ∀ x : Snap, pushToHistory initialHistory x =
      { history := [x], historyPointer := 0 } := by
    intro x
    rw [pushToHistory, if_neg]
    · simp [initialHistory, MAX_HISTORY]
    · simp [pushSkips, initialHistory]
  refine ⟨?_, ?_, ?_, ?_, ?_⟩
  · rw [Srt.undo]
    split
    · rename_i hpos
      have h1 : (s.historyPointer - 1).toNat < s.history.length := by omega
      simp [List.getElem?_eq_getElem h1]
      omega
    · rename_i hneg
      simp only [iff_true_intro rfl, true_iff]
      omega
  · rw [Srt.redo]
    split
    · rename_i hpos
      have h1 : (s.historyPointer + 1).toNat < s.history.length := by omega
      simp [List.getElem?_eq_getElem h1]
      omega
    · rename_i hneg
      simp only [iff_true_intro rfl, true_iff]
      omega
  · rw [Srt.undo]
    split
    · rename_i hpos
      intro hnone
      have h1 : (s.historyPointer - 1).toNat < s.history.length := by omega
      rw [List.getElem?_eq_getElem h1] at hnone
      simp at hnone
    · intro _; rfl
  · rw [Srt.redo]
    split
    · rename_i hpos
      intro hnone
      have h1 : (s.historyPointer + 1).toNat < s.history.length := by omega
      rw [List.getElem?_eq_getElem h1] at hnone
      simp at hnone
    · intro _; rfl
  · intro x
    rw [hfresh x]
    constructor
    · rw [Srt.undo, if_neg]; dsimp only; omega
    · rw [Srt.redo, if_neg]; dsimp only; simp

theorem str_ext (s t : String) (h : s.data = t.data) : s = t := by
  cases s
  cases t
  simp only at h
  rw [h]

theorem str_append_data (a b : String) : (a ++ b).data = a.data ++ b.data :=
  String.data_append a b

theorem splitOnChar_ne_nil (sep : Char) (cs : List Char) : splitOnChar sep cs ≠ [] := by
  cases cs with
  | nil => simp [splitOnChar]
  | cons c rest =>
    simp only [splitOnChar]
    split <;> simp

theorem splitOnChar_single (sep : Char) (cs l : List Char)
    (h : splitOnChar sep cs = [l]) : cs = l := by
  induction cs generalizing l with
  | nil =>
    simp only [splitOnChar, List.cons.injEq, and_true] at h
    rw [← h]
  | cons c rest ih =>
    simp only [splitOnChar] at h
    by_cases hc : c = sep
    · rw [if_pos hc] at h
      exact absurd (List.cons.inj h).2 (splitOnChar_ne_nil sep rest)
    · rw [if_neg hc] at h
      obtain ⟨h1, h2⟩ := List.cons.inj h
      obtain ⟨r0, rtl, hr⟩ : ∃ r0 rtl, splitOnChar sep rest = r0 :: rtl := by
        cases hsp : splitOnChar sep rest with
        | nil => exact absurd hsp (splitOnChar_ne_nil sep rest)
        | cons a b => exact ⟨a, b, rfl⟩
      rw [hr] at h1 h2
      simp only [List.headD_cons, List.tail_cons] at h1 h2
      subst h2
      have := ih r0 (by rw [hr])
      rw [← h1, ← this]

theorem splitOnChar_pair (sep : Char) (cs l1 l2 : List Char)
    (h : splitOnChar sep cs = [l1, l2]) : cs = l1 ++ sep :: l2 := by
  induction cs generalizing l1 with
  | nil => simp [splitOnChar] at h
  | cons c rest ih =>
    simp only [splitOnChar] at h
    by_cases hc : c = sep
    · rw [if_pos hc] at h
      obtain ⟨h1, h2⟩ := List.cons.inj h
      have := splitOnChar_single sep rest l2 (by rw [h2])
      rw [← h1, hc, this]
      rfl
    · rw [if_neg hc] at h
      obtain ⟨h1, h2⟩ := List.cons.inj h
      obtain ⟨r0, rtl, hr⟩ : ∃ r0 rtl, splitOnChar sep rest = r0 :: rtl := by
        cases hsp : splitOnChar sep rest with
        | nil => exact absurd hsp (splitOnChar_ne_nil sep rest)
        | cons a b => exact ⟨a, b, rfl⟩
      rw [hr] at h1 h2
      simp only [List.headD_cons, List.tail_cons] at h1 h2
      have hrest : rest = r0 ++ sep :: l2 := by
        apply ih
        rw [hr, h2]
      rw [← h1, hrest]
      rfl

theorem matchTimeRegex_inv (t a b c : String)
    (h : matchTimeRegex t = some (a, b, c)) :
    ∃ s1 s2 m1 m2 m3 : Char,
      b.data = [s1, s2] ∧ c.data = [m1, m2, m3] ∧
      splitOnChar ':' t.data = [a.data, b.data ++ '.' :: c.data] ∧
      splitOnChar '.' (b.data ++ '.' :: c.data) = [b.data, c.data] ∧
      a.data ≠ [] ∧ a.data.all Char.isDigit = true ∧
      s1.isDigit = true ∧ s1 ≤ '5' ∧ s2.isDigit = true ∧
      m1.isDigit = true ∧ m2.isDigit = true ∧ m3.isDigit = true ∧
      t.data = a.data ++ ':' :: (b.data ++ '.' :: c.data) := by
  unfold matchTimeRegex at h
  split at h
  case _ minsL restL heq1 =>
    split at h
    case _ secsL msL heq2 =>
      split at h
      case _ s1 s2 m1 m2 m3 =>
        split at h
        case isTrue hcond =>
          obtain ⟨hne, hall, hd1, hle, hd2, he1, he2, he3⟩ := hcond
          injection h with h'
          obtain ⟨ha, hb, hc⟩ : a = ⟨minsL⟩ ∧ b = ⟨[s1, s2]⟩ ∧ c = ⟨[m1, m2, m3]⟩ := by
            have h1 := congrArg Prod.fst h'
            have h2 := congrArg (fun p => p.2.1) h'
            have h3 := congrArg (fun p => p.2.2) h'
            exact ⟨h1.symm, h2.symm, h3.symm⟩
          subst ha
          subst hb
          subst hc
          have hrest : restL = [s1, s2] ++ '.' :: [m1, m2, m3] :=
            splitOnChar_pair '.' restL [s1, s2] [m1, m2, m3] heq2
          have hT : t.data = minsL ++ ':' :: restL :=
            splitOnChar_pair ':' t.data minsL restL heq1
          refine ⟨s1, s2, m1, m2, m3, rfl, rfl, ?_, ?_, hne, hall,
            hd1, hle, hd2, he1, he2, he3, ?_⟩
          · rw [← hrest]
            exact heq1
          · rw [← hrest]
            exact heq2
          · rw [hT, hrest]
        case isFalse => exact absurd h (by simp)
      case _ => exact absurd h (by simp)
    case _ => exact absurd h (by simp)
  case _ => exact absurd h (by simp)

theorem digit_bounds (c : Char) (h : c.isDigit = true) :
    48 ≤ c.toNat ∧ c.toNat ≤ 57 := by
  simp [Char.isDigit] at h
  obtain ⟨h1, h2⟩ := h
  exact ⟨h1, h2⟩

theorem digitChar_digitVal (c : Char) (h : c.isDigit = true) :
    Nat.digitChar (digitVal c) = c := by
  obtain ⟨h1, h2⟩ := digit_bounds c h
  have hofn := Char.ofNat_toNat c
  have hd : c.toNat = 48 ∨ c.toNat = 49 ∨ c.toNat = 50 ∨ c.toNat = 51 ∨ c.toNat = 52 ∨
      c.toNat = 53 ∨ c.toNat = 54 ∨ c.toNat = 55 ∨ c.toNat = 56 ∨ c.toNat = 57 := by
    omega
  unfold digitVal
  rcases hd with h|h|h|h|h|h|h|h|h|h <;> (rw [h] at hofn; rw [h, ← hofn]; decide)

theorem digitVal_le_nine (c : Char) (h : c.isDigit = true) : digitVal c ≤ 9 := by
  obtain ⟨h1, h2⟩ := digit_bounds c h
  unfold digitVal
  omega

theorem digitVal_le_five (c : Char) (h : c ≤ '5') : digitVal c ≤ 5 := by
  have h' : c.toNat ≤ 53 := h
  unfold digitVal
  omega

theorem digitsToNat_two (s1 s2 : Char) :
    digitsToNat [s1, s2] = 10 * digitVal s1 + digitVal s2 := by
  simp [digitsToNat]

theorem digitsToNat_three (m1 m2 m3 : Char) :
    digitsToNat [m1, m2, m3] = 100 * digitVal m1 + (10 * digitVal m2 + digitVal m3) := by
  simp [digitsToNat]
  ring

theorem padStart_two_digit : ∀ a < 10, ∀ b < 10,
    padStart (Nat.repr (10 * a + b)) 2 '0' =
      (⟨[Nat.digitChar a, Nat.digitChar b]⟩ : String) := by
  decide

theorem padStart_three_digit : ∀ a < 10, ∀ b < 10, ∀ c < 10,
    padStart (Nat.repr (100 * a + (10 * b + c))) 3 '0' =
      (⟨[Nat.digitChar a, Nat.digitChar b, Nat.digitChar c]⟩ : String) := by
  decide

theorem int_toString_natCast (n : Nat) : toString ((n : Nat) : Int) = Nat.repr n := rfl

theorem floor_div_sixty (m s ms : Nat) (hs : s ≤ 59) (hms : ms ≤ 999) :
    ⌊((m : ℚ) * 60 + (s : ℚ) + (ms : ℚ) / 1000) / 60⌋ = (m : Int) := by
  have hms' : (ms : ℚ) / 1000 < 1 := by
    rw [div_lt_one (by norm_num)]
    exact_mod_cast by omega
  have hms0 : (0 : ℚ) ≤ (ms : ℚ) / 1000 := by positivity
  have hs' : (s : ℚ) ≤ 59 := by exact_mod_cast hs
  have hs0 : (0 : ℚ) ≤ (s : ℚ) := by positivity
  rw [Int.floor_eq_iff]
  constructor
  · rw [le_div_iff₀ (by norm_num)]
    push_cast
    linarith
  · rw [div_lt_iff₀ (by norm_num)]
    push_cast
    linarith

theorem floor_whole (m s ms : Nat) (_hs : s ≤ 59) (hms : ms ≤ 999) :
    ⌊((m : ℚ) * 60 + (s : ℚ) + (ms : ℚ) / 1000)⌋ = ((60 * m + s : Nat) : Int) := by
  have hms' : (ms : ℚ) / 1000 < 1 := by
    rw [div_lt_one (by norm_num)]
    exact_mod_cast by omega
  have hms0 : (0 : ℚ) ≤ (ms : ℚ) / 1000 := by positivity
  rw [Int.floor_eq_iff]
  constructor
  · push_cast
    linarith
  · push_cast
    linarith

/-- The canonical decomposition m*60 + s + ms/1000 prints back as the
zero-padded m : s . ms string. -/
theorem formatSecondsToMMSS_canonical (m s ms : Nat) (hs : s ≤ 59) (hms : ms ≤ 999) :
    formatSecondsToMMSS ((m : ℚ) * 60 + (s : ℚ) + (ms : ℚ) / 1000) =
      padStart (Nat.repr m) 2 '0' ++ ":" ++ padStart (Nat.repr s) 2 '0' ++ "." ++
        padStart (Nat.repr ms) 3 '0' := by
  have hq0 : (0 : ℚ) ≤ (m : ℚ) * 60 + (s : ℚ) + (ms : ℚ) / 1000 := by positivity
  have hf1 : ⌊((m : ℚ) * 60 + (s : ℚ) + (ms : ℚ) / 1000) / 60⌋ = (m : Int) :=
    floor_div_sixty m s ms hs hms
  have hrem60 : jsRemQ ((m : ℚ) * 60 + (s : ℚ) + (ms : ℚ) / 1000) 60 =
      (s : ℚ) + (ms : ℚ) / 1000 := by
    unfold jsRemQ qTrunc
    rw [if_pos (by positivity), hf1]
    push_cast
    ring
  have hf2 : ⌊(s : ℚ) + (ms : ℚ) / 1000⌋ = (s : Int) := by
    have h0 := floor_div_sixty 0 s ms hs hms
    have h1 := floor_whole 0 s ms hs hms
    simpa using h1
  have hrem1 : jsRemQ ((m : ℚ) * 60 + (s : ℚ) + (ms : ℚ) / 1000) 1 =
      (ms : ℚ) / 1000 := by
    unfold jsRemQ qTrunc
    rw [div_one, if_pos hq0, floor_whole m s ms hs hms]
    push_cast
    ring
  have hf3 : ⌊jsRemQ ((m : ℚ) * 60 + (s : ℚ) + (ms : ℚ) / 1000) 1 * 1000⌋ = (ms : Int) := by
    rw [hrem1, div_mul_cancel₀ _ (by norm_num : (1000 : ℚ) ≠ 0)]
    exact Int.floor_natCast ms
  unfold formatSecondsToMMSS
  rw [hf1, hrem60, hf2, hf3, int_toString_natCast, int_toString_natCast,
    int_toString_natCast]

/-- Counterexample to C9 as stated: "5:07.123" is accepted by
validateTimeFormat (the regex allows a single minutes digit), but
formatSecondsToMMSS ∘ timeToSeconds re-prints it as "05:07.123". -/
theorem time_round_trip_cex :
    validateTimeFormat "5:07.123" = true ∧
    formatSecondsToMMSS (timeToSeconds "5:07.123") ≠ "5:07.123" := by
  constructor
  · decide
  · have hm : matchTimeRegex "5:07.123" = some ("5", "07", "123") := by decide
    have h5 : digitsToNat (String.data "5") = 5 := by decide
    have h7 : digitsToNat (String.data "07") = 7 := by decide
    have h123 : digitsToNat (String.data "123") = 123 := by decide
    have htts : timeToSeconds "5:07.123" =
        ((5 : Nat) : ℚ) * 60 + ((7 : Nat) : ℚ) + ((123 : Nat) : ℚ) / 1000 := by
      unfold timeToSeconds
      rw [hm]
      show (digitsToNat (String.data "5") : ℚ) * 60 + (digitsToNat (String.data "07") : ℚ) +
          (digitsToNat (String.data "123") : ℚ) / 1000 = _
      rw [h5, h7, h123]
    rw [htts, formatSecondsToMMSS_canonical 5 7 123 (by norm_num) (by norm_num)]
    decide

/-- Claim C9 amended. Two independent counterexamples cut the claim down:
the regex accepts non-canonical minutes fields ("5:07.123" reprints as
"05:07.123"), and on non-dyadic values the program's IEEE doubles round
("00:08.200" reprints as "00:08.199" in JS, because
timeToSeconds("00:08.200") is the double 8.199999999999999289…). The
round trip therefore holds for the accepted strings whose minutes field is
canonical and whose millisecond field is a multiple of 125 — exactly those
whose value is a dyadic rational n/8, exhibited by the first conjunct,
which is the domain (for minutes within the 53-bit integer range of
doubles) on which every arithmetic step of the program is exact and agrees
with this model. -/
theorem time_round_trip_dyadic (t a b c : String)
    (h : matchTimeRegex t = some (a, b, c))
    (hcanon : a = padStart (toString (digitsToNat a.data)) 2 '0')
    (hdyadic : digitsToNat c.data % 125 = 0) :
    timeToSeconds t =
      ((480 * digitsToNat a.data + 8 * digitsToNat b.data +
        digitsToNat c.data / 125 : Nat) : ℚ) / 8 ∧
    formatSecondsToMMSS (timeToSeconds t) = t := by
  obtain ⟨s1, s2, m1, m2, m3, hb, hc, hsp1, hsp2, hne, hall, hd1, hle, hd2,
    he1, he2, he3, hT⟩ := matchTimeRegex_inv t a b c h
  have htts : timeToSeconds t = (digitsToNat a.data : ℚ) * 60 +
      (digitsToNat b.data : ℚ) + (digitsToNat c.data : ℚ) / 1000 := by
    unfold timeToSeconds
    rw [h]
  have hsv : digitsToNat b.data ≤ 59 := by
    rw [hb, digitsToNat_two]
    have hv1 := digitVal_le_five s1 hle
    have hv2 := digitVal_le_nine s2 hd2
    omega
  have hmsv : digitsToNat c.data ≤ 999 := by
    rw [hc, digitsToNat_three]
    have hv1 := digitVal_le_nine m1 he1
    have hv2 := digitVal_le_nine m2 he2
    have hv3 := digitVal_le_nine m3 he3
    omega
  constructor
  · obtain ⟨k, hk⟩ := Nat.dvd_of_mod_eq_zero hdyadic
    rw [htts, hk, Nat.mul_div_cancel_left k (by norm_num)]
    push_cast
    field_simp
    ring
  · rw [htts, formatSecondsToMMSS_canonical _ _ _ hsv hmsv]
    have hpa : padStart (Nat.repr (digitsToNat a.data)) 2 '0' = a := hcanon.symm
    have hpb : padStart (Nat.repr (digitsToNat b.data)) 2 '0' = b := by
      rw [hb, digitsToNat_two,
        padStart_two_digit (digitVal s1) (by have := digitVal_le_five s1 hle; omega)
          (digitVal s2) (by have := digitVal_le_nine s2 hd2; omega),
        digitChar_digitVal s1 hd1, digitChar_digitVal s2 hd2]
      apply str_ext
      rw [hb]
    have hpc : padStart (Nat.repr (digitsToNat c.data)) 3 '0' = c := by
      rw [hc, digitsToNat_three,
        padStart_three_digit (digitVal m1) (by have := digitVal_le_nine m1 he1; omega)
          (digitVal m2) (by have := digitVal_le_nine m2 he2; omega)
          (digitVal m3) (by have := digitVal_le_nine m3 he3; omega),
        digitChar_digitVal m1 he1, digitChar_digitVal m2 he2, digitChar_digitVal m3 he3]
      apply str_ext
      rw [hc]
    rw [hpa, hpb, hpc]
    apply str_ext
    simp only [str_append_data, List.append_assoc]
    rw [hT]
    rfl

/-- Witness for the amended C9 at the canonical dyadic input "00:08.125"
(value 65/8). -/
theorem time_round_trip_dyadic_witness :
    timeToSeconds "00:08.125" =
      ((480 * digitsToNat (String.data "00") + 8 * digitsToNat (String.data "08") +
        digitsToNat (String.data "125") / 125 : Nat) : ℚ) / 8 ∧
    formatSecondsToMMSS (timeToSeconds "00:08.125") = "00:08.125" :=
  time_round_trip_dyadic "00:08.125" "00" "08" "125" (by decide) (by decide) (by decide)

theorem splitOnChar_not_mem (sep : Char) (cs : List Char) (h : sep ∉ cs) :
    splitOnChar sep cs = [cs] := by
  induction cs with
  | nil => rfl
  | cons c rest ih =>
    have hcs : ¬ c = sep := fun heq => h (by rw [heq]; exact List.mem_cons_self _ _)
    have hrest : sep ∉ rest := fun hm => h (List.mem_cons_of_mem _ hm)
    simp only [splitOnChar]
    rw [if_neg hcs, ih hrest]
    rfl

theorem splitOnChar_append_cons (sep : Char) (l1 l2 : List Char) (h : sep ∉ l1) :
    splitOnChar sep (l1 ++ sep :: l2) = l1 :: splitOnChar sep l2 := by
  induction l1 with
  | nil =>
    show splitOnChar sep (sep :: l2) = [] :: splitOnChar sep l2
    simp [splitOnChar]
  | cons c rest ih =>
    have hcs : ¬ c = sep := fun heq => h (by rw [heq]; exact List.mem_cons_self _ _)
    have hrest : sep ∉ rest := fun hm => h (List.mem_cons_of_mem _ hm)
    show splitOnChar sep (c :: (rest ++ sep :: l2)) = (c :: rest) :: splitOnChar sep l2
    simp only [splitOnChar]
    rw [if_neg hcs, ih hrest]
    rfl

theorem not_mem_of_all_digit (l : List Char) (hall : l.all Char.isDigit = true)
    (c : Char) (hc : c.isDigit = false) : c ∉ l :=
  fun hm => absurd (List.all_eq_true.mp hall c hm) (by simp [hc])

theorem jsJoin_newline (l : List String) (h : l ≠ []) :
    jsJoin "\n" (l.map fun s => s ++ "\n") = jsJoin "\n\n" l ++ "\n" := by
  induction l with
  | nil => exact absurd rfl h
  | cons x xs ih =>
    cases xs with
    | nil => rfl
    | cons y ys =>
      have ihy := ih (by simp)
      show (x ++ "\n") ++ "\n" ++ jsJoin "\n" ((y :: ys).map fun s => s ++ "\n") =
        (x ++ "\n\n" ++ jsJoin "\n\n" (y :: ys)) ++ "\n"
      rw [ihy]
      apply str_ext
      simp only [str_append_data, List.append_assoc]
      rfl

theorem digit_not_ws (c : Char) (h : c.isDigit = true) : c.isWhitespace = false := by
  obtain ⟨h1, _h2⟩ := digit_bounds c h
  have hs : c ≠ ' ' := fun heq => absurd (heq ▸ h1) (by decide)
  have ht : c ≠ '\t' := fun heq => absurd (heq ▸ h1) (by decide)
  have hr : c ≠ '\r' := fun heq => absurd (heq ▸ h1) (by decide)
  have hn : c ≠ '\n' := fun heq => absurd (heq ▸ h1) (by decide)
  simp [Char.isWhitespace, hs, ht, hr, hn]

theorem jsParseInt_digits (l : List Char) (hne : l ≠ [])
    (hd : l.all Char.isDigit = true) : jsParseInt ⟨l⟩ = (digitsToNat l : Int) := by
  obtain ⟨c, rest, rfl⟩ : ∃ c rest, l = c :: rest := by
    cases l with
    | nil => exact absurd rfl hne
    | cons c r => exact ⟨c, r, rfl⟩
  have hall := List.all_eq_true.mp hd
  have hc : c.isDigit = true := hall c (by simp)
  obtain ⟨hb1, _hb2⟩ := digit_bounds c hc
  have hcw : c.isWhitespace = false := digit_not_ws c hc
  have hdw : (c :: rest).dropWhile Char.isWhitespace = c :: rest := by
    rw [List.dropWhile_cons, if_neg (by simp [hcw])]
  have htw : (c :: rest).takeWhile Char.isDigit = c :: rest :=
    List.takeWhile_eq_self_iff.mpr hall
  have hcm : ¬ c = '-' := fun heq => absurd (heq ▸ hb1) (by decide)
  have hcp : ¬ c = '+' := fun heq => absurd (heq ▸ hb1) (by decide)
  unfold jsParseInt
  show jsParseIntAux ((c :: rest).dropWhile Char.isWhitespace) = _
  rw [hdw]
  simp only [jsParseIntAux]
  rw [if_neg hcm, if_neg hcp, htw, if_neg (by simp)]

/-- Claim C8: convertToSRT emits, in list order, one block per entry of the
form index ⏎ HH:MM:SS,mmm --> HH:MM:SS,mmm ⏎ text, with exactly one blank
line between consecutive blocks (each block ends in a newline and the
blocks are joined with a newline); on a timestamp accepted by the time
regex, formatTime re-parses the minutes, carries minutes >= 60 into the
hours field, pads hours and minutes (and the seconds digits) to 2 digits,
and keeps the three millisecond digits; and on any 'M:S.m'-style input
(arbitrary nonempty minutes digits, arbitrary seconds and millisecond
digit runs), it parses the minutes, carries minutes >= 60 into hours, pads
the raw seconds digits to 2, and pads/truncates the raw millisecond digits
to exactly 3 — e.g. "5:7.1" becomes "00:05:07,100". -/
theorem convert_to_srt_format (entries : List SubtitleEntry) :
    (entries ≠ [] → convertToSRT entries =
      jsJoin "\n\n" (entries.map fun e =>
        toString e.index ++ "\n" ++ formatTimeSRT e.startTime ++ " --> " ++
          formatTimeSRT e.endTime ++ "\n" ++ e.text) ++ "\n") ∧
    (∀ t a b c : String, matchTimeRegex t = some (a, b, c) →
      formatTimeSRT t =
        padStart (toString (digitsToNat a.data / 60)) 2 '0' ++ ":" ++
        padStart (toString (digitsToNat a.data % 60)) 2 '0' ++ ":" ++
        b ++ "," ++ c) ∧
    (∀ mins secs ms : List Char, mins ≠ [] → mins.all Char.isDigit = true →
      secs.all Char.isDigit = true → ms.all Char.isDigit = true →
      formatTimeSRT ⟨mins ++ ':' :: (secs ++ '.' :: ms)⟩ =
        padStart (toString (digitsToNat mins / 60)) 2 '0' ++ ":" ++
        padStart (toString (digitsToNat mins % 60)) 2 '0' ++ ":" ++
        padStart ⟨secs⟩ 2 '0' ++ "," ++
        ⟨(ms ++ List.replicate (3 - ms.length) '0').take 3⟩) := by
  refine ⟨?_, ?_, ?_⟩
  · intro hne
    unfold convertToSRT
    rw [show (entries.map fun e =>
        toString e.index ++ "\n" ++ formatTimeSRT e.startTime ++ " --> " ++
          formatTimeSRT e.endTime ++ "\n" ++ e.text ++ "\n") =
        ((entries.map fun e =>
          toString e.index ++ "\n" ++ formatTimeSRT e.startTime ++ " --> " ++
            formatTimeSRT e.endTime ++ "\n" ++ e.text).map fun s => s ++ "\n") from by
      rw [List.map_map]
      rfl]
    exact jsJoin_newline _ (by simpa using hne)
  · intro t a b c h
    obtain ⟨s1, s2, m1, m2, m3, hb, hc, hsp1, hsp2, hne, hall, _hd1, _hle, _hd2,
      _he1, _he2, _he3, _hT⟩ := matchTimeRegex_inv t a b c h
    have hS : srtSecsPart t = b.data ++ '.' :: c.data := by
      unfold srtSecsPart
      rw [hsp1]
      simp only [List.getD_cons_succ, List.getD_cons_zero]
      rw [if_neg (by simp)]
    have hM : srtMillisPart t = c.data := by
      unfold srtMillisPart
      rw [hS, hsp2]
      simp only [List.getD_cons_succ, List.getD_cons_zero]
      rw [if_neg (by rw [hc]; simp)]
    have hmins : jsParseInt ⟨(splitOnChar ':' t.data).headD []⟩ =
        (digitsToNat a.data : Int) := by
      rw [hsp1]
      simp only [List.headD_cons]
      exact jsParseInt_digits a.data hne hall
    have hmod : jsTruncModInt ((digitsToNat a.data : Nat) : Int) 60 =
        ((digitsToNat a.data % 60 : Nat) : Int) := by
      unfold jsTruncModInt
      rw [if_pos (Int.natCast_nonneg _), Int.toNat_natCast]
    unfold formatTimeSRT
    rw [hmins, hS, hsp2]
    simp only [List.headD_cons]
    rw [hM, Int.fdiv_eq_ediv _ (by norm_num),
      show ((digitsToNat a.data : Int)) / 60 = ((digitsToNat a.data / 60 : Nat) : Int) from by
        push_cast
        rfl,
      hmod, int_toString_natCast, int_toString_natCast,
      show padStart ⟨b.data⟩ 2 '0' = b from by
        apply str_ext
        show List.replicate (2 - b.data.length) '0' ++ b.data = b.data
        rw [hb]
        rfl,
      show (⟨(c.data ++ List.replicate (3 - c.data.length) '0').take 3⟩ : String) = c from by
        apply str_ext
        show (c.data ++ List.replicate (3 - c.data.length) '0').take 3 = c.data
        rw [hc]
        rfl]
    rfl
  · intro mins secs ms hne hdm hds hdms
    have hc1 : ':' ∉ mins := not_mem_of_all_digit mins hdm ':' (by decide)
    have hc2 : ':' ∉ secs ++ '.' :: ms := by
      intro hm
      rcases List.mem_append.mp hm with hm1 | hm2
      · exact not_mem_of_all_digit secs hds ':' (by decide) hm1
      · rcases List.mem_cons.mp hm2 with he | hm3
        · exact absurd he (by decide)
        · exact not_mem_of_all_digit ms hdms ':' (by decide) hm3
    have h1 : splitOnChar ':' (mins ++ ':' :: (secs ++ '.' :: ms)) =
        [mins, secs ++ '.' :: ms] := by
      rw [splitOnChar_append_cons ':' mins _ hc1, splitOnChar_not_mem ':' _ hc2]
    have h2 : splitOnChar '.' (secs ++ '.' :: ms) = [secs, ms] := by
      rw [splitOnChar_append_cons '.' secs ms (not_mem_of_all_digit secs hds '.' (by decide)),
        splitOnChar_not_mem '.' ms (not_mem_of_all_digit ms hdms '.' (by decide))]
    have hS : srtSecsPart ⟨mins ++ ':' :: (secs ++ '.' :: ms)⟩ = secs ++ '.' :: ms := by
      unfold srtSecsPart
      dsimp only
      rw [h1]
      simp only [List.getD_cons_succ, List.getD_cons_zero]
      rw [if_neg (by simp)]
    have hM : srtMillisPart ⟨mins ++ ':' :: (secs ++ '.' :: ms)⟩ =
        (if ms = [] then "000".data else ms) := by
      unfold srtMillisPart
      rw [hS, h2]
      simp only [List.getD_cons_succ, List.getD_cons_zero]
    have hmins : jsParseInt ⟨(splitOnChar ':'
        (⟨mins ++ ':' :: (secs ++ '.' :: ms)⟩ : String).data).headD []⟩ =
        (digitsToNat mins : Int) := by
      dsimp only
      rw [h1]
      simp only [List.headD_cons]
      exact jsParseInt_digits mins hne hdm
    have hmod : jsTruncModInt ((digitsToNat mins : Nat) : Int) 60 =
        ((digitsToNat mins % 60 : Nat) : Int) := by
      unfold jsTruncModInt
      rw [if_pos (Int.natCast_nonneg _), Int.toNat_natCast]
    unfold formatTimeSRT
    rw [hmins, hS, h2]
    simp only [List.headD_cons]
    rw [hM, Int.fdiv_eq_ediv _ (by norm_num),
      show ((digitsToNat mins : Int)) / 60 = ((digitsToNat mins / 60 : Nat) : Int) from by
        push_cast
        rfl,
      hmod, int_toString_natCast, int_toString_natCast]
    by_cases hmsnil : ms = []
    · subst hmsnil
      rfl
    · rw [if_neg hmsnil]
      rfl

/-- Witness for C8 on a concrete entry list, a concrete regex-matched time,
and the concrete single-digit-fields time "5:7.1" where the seconds and
millisecond padding is non-vacuous. -/
theorem convert_to_srt_format_witness :
    convertToSRT [demoEntry] =
      jsJoin "\n\n" ([demoEntry].map fun e =>
        toString e.index ++ "\n" ++ formatTimeSRT e.startTime ++ " --> " ++
          formatTimeSRT e.endTime ++ "\n" ++ e.text) ++ "\n" ∧
    formatTimeSRT "65:07.123" =
      padStart (toString (digitsToNat (String.data "65") / 60)) 2 '0' ++ ":" ++
      padStart (toString (digitsToNat (String.data "65") % 60)) 2 '0' ++ ":" ++
      "07" ++ "," ++ "123" ∧
    formatTimeSRT ⟨['5'] ++ ':' :: (['7'] ++ '.' :: ['1'])⟩ =
      padStart (toString (digitsToNat ['5'] / 60)) 2 '0' ++ ":" ++
      padStart (toString (digitsToNat ['5'] % 60)) 2 '0' ++ ":" ++
      padStart ⟨['7']⟩ 2 '0' ++ "," ++
      ⟨(['1'] ++ List.replicate (3 - (['1'] : List Char).length) '0').take 3⟩ ∧
    formatTimeSRT "5:7.1" = "00:05:07,100" :=
  ⟨(convert_to_srt_format [demoEntry]).1 (by simp),
    (convert_to_srt_format [demoEntry]).2.1 "65:07.123" "65" "07" "123" (by decide),
    (convert_to_srt_format [demoEntry]).2.2 ['5'] ['7'] ['1']
      (by decide) (by decide) (by decide) (by decide),
    by
      have h := (convert_to_srt_format [demoEntry]).2.2 ['5'] ['7'] ['1']
        (by decide) (by decide) (by decide) (by decide)
      rw [show ("5:7.1" : String) = ⟨['5'] ++ ':' :: (['7'] ++ '.' :: ['1'])⟩ from by decide, h]
      decide⟩

/-- Witness for C10 at the initial state. -/
theorem undo_redo_null_boundary_witness :
    ((undo initialHistory).1 = none ↔ initialHistory.historyPointer ≤ 0) ∧
    ((redo initialHistory).1 = none ↔
      (initialHistory.history.length : Int) - 1 ≤ initialHistory.historyPointer) ∧
    ((undo initialHistory).1 = none → (undo initialHistory).2 = initialHistory) ∧
    ((redo initialHistory).1 = none → (redo initialHistory).2 = initialHistory) ∧
    (∀ x : Snap, (undo (pushToHistory initialHistory x)).1 = none ∧
      (redo (pushToHistory initialHistory x)).1 = none) :=
  undo_redo_null_boundary initialHistory Reachable.init

end Srt
